import Mathlib

/-!
Shallow embedding of the crawl-orchestration core of the Google Maps
scraper backend (`scraper.py`, `main.py`): text normalization and dedup
keys, synonym and region expansion, the scroll-convergence loop, the
navigation retry loop, the extraction pool's check-and-insert discipline,
and the API layer's session command handling.

Python strings are modelled as Lean `String`s (sequences of Unicode
scalar values).  `str.lower` is modelled on the ASCII and Latin-1
uppercase ranges, which cover every string the program manipulates; the
whitespace class of the regex `\s` and of `str.strip` is modelled by the
six ASCII whitespace characters.
-/

namespace Scraper

/-- Python `str.lower`, on the ASCII and Latin-1 uppercase ranges
(`A`-`Z`, and `À`-`Þ` except the multiplication sign `×`). -/
def lowerChar (c : Char) : Char :=
  if 65 ≤ c.toNat ∧ c.toNat ≤ 90 then Char.ofNat (c.toNat + 32)
  else if 192 ≤ c.toNat ∧ c.toNat ≤ 222 ∧ c.toNat ≠ 215 then Char.ofNat (c.toNat + 32)
  else c

/-- The whitespace class of the regex `\s` and of `str.strip`: space,
tab, newline, carriage return, vertical tab, form feed. -/
def isSpaceChar (c : Char) : Bool :=
  decide (c.toNat = 32 ∨ c.toNat = 9 ∨ c.toNat = 10 ∨ c.toNat = 13 ∨
    c.toNat = 11 ∨ c.toNat = 12)

/-- The six accent replacements of `_normalize_text` (scraper.py 65-68). -/
def deaccentChar (c : Char) : Char :=
  if c = 'á' then 'a' else if c = 'é' then 'e' else if c = 'í' then 'i'
  else if c = 'ó' then 'o' else if c = 'ú' then 'u' else if c = 'ñ' then 'n'
  else c

/-- Characterwise lowercasing of a character list. -/
def lowerL (l : List Char) : List Char := l.map lowerChar

/-- `re.sub(r"\s+", " ", s)` (scraper.py 78): every maximal whitespace
run becomes one single space. -/
def collapseWS : List Char → List Char
  | [] => []
  | [c] => if isSpaceChar c then [' '] else [c]
  | c :: d :: rest =>
    if isSpaceChar c && isSpaceChar d then collapseWS (d :: rest)
    else (if isSpaceChar c then ' ' else c) :: collapseWS (d :: rest)

/-- Trailing-whitespace removal, the right half of Python `str.strip`. -/
def dropTrailWS : List Char → List Char
  | [] => []
  | c :: rest =>
    let r := dropTrailWS rest
    if r.isEmpty && isSpaceChar c then [] else c :: r

/-- Python `str.strip`: drop leading and trailing whitespace. -/
def stripL (l : List Char) : List Char := dropTrailWS (l.dropWhile isSpaceChar)

/-- The per-component normalization `norm` inside `_make_key`
(scraper.py 76-79): lowercase, collapse whitespace runs, strip.  Note
that it does not touch accented characters. -/
def normKeyL (l : List Char) : List Char := stripL (collapseWS (lowerL l))

/-- String form of the key-component normalization. -/
def normKey (s : String) : String := ⟨normKeyL s.data⟩

/-- `_make_key` (scraper.py 74-80): the DedupKey of a record. -/
def make_key (nombre direccion : String) : String × String :=
  (normKey nombre, normKey direccion)

/-- Python `str.strip` on strings. -/
def stripS (s : String) : String := ⟨stripL s.data⟩

/-- Python `str.lower` on strings. -/
def lowerS (s : String) : String := ⟨lowerL s.data⟩

/-- `_normalize_text` (scraper.py 63-72): lowercase, then the six
single-character accent replacements.  The replacement domains and
ranges are disjoint, so the sequential `str.replace` calls fuse into a
single character map. -/
def normalize_text (s : String) : String :=
  ⟨s.data.map (fun c => deaccentChar (lowerChar c))⟩

/-- The key-component normalization as the spec narrates it: lowercased,
diacritics stripped, whitespace runs collapsed, trimmed.  This follows
the spec text, not the code; it exists only to compare the spec's claim
about DedupKey against `make_key`. -/
def specKeyNorm (s : String) : String :=
  ⟨stripL (collapseWS ((lowerL s.data).map deaccentChar))⟩

/-- The synonym table `self.sinonimos` (scraper.py 43-51). -/
def sinonimos : List (String × List String) :=
  [("restaurante", ["restaurant", "comida", "food", "gastronomía", "cocina"]),
   ("hotel", ["hospedaje", "alojamiento", "hostal", "lodge", "inn"]),
   ("minería", ["mining", "minera", "mina", "extracción minera"]),
   ("construcción", ["construccion", "building", "obra", "contractor"]),
   ("farmacia", ["pharmacy", "botica", "drugstore"]),
   ("panadería", ["bakery", "pan", "bread", "pastelería"]),
   ("ferretería", ["hardware store", "herramientas", "tools"])]

/-- Python substring containment `needle in haystack` on strings. -/
def isSubstring : List Char → List Char → Bool
  | n, [] => n.isEmpty
  | n, c :: t => n.isPrefixOf (c :: t) || isSubstring n t

/-- The match condition of the `for key, synonyms` loop in
`expand_search_term` (scraper.py 89): normalized input equals the
normalized key, is one of the normalized synonyms, or is a substring of
the normalized key. -/
def matchesEntry (rubroNorm : String) (entry : String × List String) : Bool :=
  rubroNorm == normalize_text entry.1 ||
    (entry.2.map normalize_text).contains rubroNorm ||
    isSubstring rubroNorm.data (normalize_text entry.1).data

/-- First-occurrence deduplication by normalized form (scraper.py 91-97),
with the set of already-seen normalized forms as an explicit list. -/
def dedupByNorm : List String → List String → List String
  | [], _ => []
  | t :: ts, seen =>
    if seen.contains (normalize_text t) then dedupByNorm ts seen
    else t :: dedupByNorm ts (normalize_text t :: seen)

/-- The table scan of `expand_search_term`: the first matching entry
produces `[rubro.strip()] + synonyms`, deduplicated by normalized form
and truncated to 3; no match falls through to `[rubro]`. -/
def expandLoop (rubro : String) (rubroNorm : String) :
    List (String × List String) → List String
  | [] => [rubro]
  | entry :: rest =>
    if matchesEntry rubroNorm entry then
      (dedupByNorm (stripS rubro :: entry.2) []).take 3
    else expandLoop rubro rubroNorm rest

/-- `expand_search_term` (scraper.py 82-100). -/
def expand_search_term (rubro : String) : List String :=
  expandLoop rubro (normalize_text rubro) sinonimos

/-- The 32 Lima districts `distritos_lima` (scraper.py 106-114). -/
def distritos_lima : List String :=
  ["Lima", "Miraflores", "San Isidro", "Santiago de Surco", "La Molina",
   "San Borja", "Barranco", "San Miguel", "Pueblo Libre", "Jesus Maria",
   "Magdalena del Mar", "Lince", "Breña", "Rimac", "San Luis", "Chorrillos",
   "Ate", "Callao", "Los Olivos", "San Martin de Porres", "Independencia",
   "Comas", "Villa El Salvador", "Villa Maria del Triunfo",
   "San Juan de Lurigancho", "San Juan de Miraflores", "El Agustino",
   "Santa Anita", "La Victoria", "Carabayllo", "Puente Piedra", "Surquillo"]

/-- `_build_location_terms` (scraper.py 102-116): `departamento.strip().lower()`
equal to `"lima"` fans out into the district list, anything else maps to the
single string `"<departamento>, <pais>"`. -/
def build_location_terms (departamento pais : String) : List String :=
  if lowerS (stripS departamento) = "lima" then
    distritos_lima.map (fun distrito => distrito ++ ", Lima, " ++ pais)
  else [departamento ++ ", " ++ pais]

/-- A business record as extracted by `_get_business_details`
(scraper.py 368-445).  Only `nombre` and `direccion` feed the DedupKey;
the remaining extracted fields are plain payload. -/
structure Business where
  nombre : String
  direccion : String
  telefono : String
  rating : String
  reviews : String
  estado : String
  correo : String
  sitio_web : String
  departamento : String
  deriving DecidableEq, Repr

/-- The scraper-instance state touched by the extraction pool and the
session commands: the `is_running` / `is_paused` flags, the SeenKeySet
`_seen_keys` and the ResultStore `results` (scraper.py 27-32). -/
structure ScraperObj where
  is_running : Bool
  is_paused : Bool
  seen : List (String × String)
  results : List Business
  deriving DecidableEq, Repr

/-- The state a fresh `scrape()` call starts from (scraper.py 121-124):
running, not paused, SeenKeySet and ResultStore cleared. -/
def freshRun : ScraperObj :=
  { is_running := true, is_paused := false, seen := [], results := [] }

/-- One `process_link` task of the extraction pool (scraper.py 304-357),
at the granularity of its atomic accept step.  The argument is the
outcome `_get_business_details` produced for this candidate (`none` for
any extraction failure, swallowed silently).  Under the cooperative
scheduler the block from the `key not in self._seen_keys` test to the
`results.append` contains no suspension point, so it executes atomically;
a concurrent batch is therefore some sequential order of these steps. -/
def process_link (s : ScraperObj) (extracted : Option Business) : ScraperObj :=
  if s.is_running = false then s
  else
    match extracted with
    | none => s
    | some data =>
      if data.nombre ≠ "" then
        if s.seen.contains (make_key data.nombre data.direccion) then s
        else { s with seen := make_key data.nombre data.direccion :: s.seen,
                      results := s.results ++ [data] }
      else s

/-- One batch of the extraction pool (`asyncio.gather` over
`process_link` tasks, scraper.py 359-361), as the sequence of atomic
accept steps the scheduler interleaves. -/
def runBatch (s : ScraperObj) (batch : List (Option Business)) : ScraperObj :=
  batch.foldl process_link s

/-- The scroll loop of `_scroll_extensive` (scraper.py 223-265),
structurally recursive on the remaining iteration budget `fuel`; the
loop guard `scroll_count < max_scrolls (= 100)` is the pattern
`fuel ≠ 0` under the invariant `fuel + sc = 100` maintained from the
entry point `scrollLoop`.  `counts sc` is the element count the page
reports at iteration `sc`, `running sc` the value of `self.is_running`
at that iteration's check.  State: `previous` count, `noChange` streak,
`sc` scroll iterations performed.  Returns the final streak, the number
of scroll iterations performed, and whether the loop broke because the
target count was reached. -/
def scrollGo (counts : Nat → Nat) (running : Nat → Bool) (maxResults : Nat) :
    Nat → Nat → Nat → Nat → Nat × Nat × Bool
  | 0, _, noChange, sc => (noChange, sc, false)
  | fuel + 1, previous, noChange, sc =>
    if noChange < 8 ∧ running sc = true then
      if maxResults ≤ counts sc then (noChange, sc, true)
      else if counts sc = previous then
        scrollGo counts running maxResults fuel previous (noChange + 1) (sc + 1)
      else scrollGo counts running maxResults fuel (counts sc) 0 (sc + 1)
    else (noChange, sc, false)

/-- The loop of `_scroll_extensive` entered with `previous = 0`,
`no_change_count = 0`, `scroll_count = 0` and the cap of 100 iterations
(scraper.py 223-227). -/
def scrollLoop (counts : Nat → Nat) (running : Nat → Bool) (maxResults : Nat) :
    Nat × Nat × Bool :=
  scrollGo counts running maxResults 100 0 0 0

/-- The attempt at which navigation first succeeds, capped at the retry
budget of 3 (scraper.py 174). -/
def firstNavSuccess (navOk : Nat → Bool) : Nat :=
  if navOk 1 then 1 else if navOk 2 then 2 else 3

/-- The `for attempt in range(1, self.retry_count + 1)` navigation loop
(scraper.py 174-194), structurally recursive on the remaining attempts
`fuel` (= `3 - attempt + 1` from the entry point).  `navOk a` tells
whether `page.goto` succeeds on attempt `a`.  Returns the number of
attempts made, whether one succeeded, and the total inter-attempt
backoff slept (`asyncio.sleep(2)` after each failed attempt with
`attempt < 3`, scraper.py 188-189). -/
def navGo (navOk : Nat → Bool) : Nat → Nat → Nat × Bool × Nat
  | 0, attempt => (attempt - 1, false, 0)
  | fuel + 1, attempt =>
    if navOk attempt then (attempt, true, 0)
    else if attempt < 3 then
      let r := navGo navOk fuel (attempt + 1)
      (r.1, r.2.1, 2 + r.2.2)
    else (attempt, false, 0)

/-- The navigation retry loop started at attempt 1 with the retry budget
`self.retry_count = 3` (scraper.py 31). -/
def navRetry (navOk : Nat → Bool) : Nat × Bool × Nat := navGo navOk 3 1

/-- Everything one location x term iteration of `scrape` produces
(scraper.py 174-201): the navigation retry outcome, the scroll loop
outcome, and the state after the extraction batch.  The retry loop
catches every navigation exception, so control always reaches
`_scroll_extensive` and `_extract_business_data` regardless of
navigation success. -/
structure IterOutcome where
  navAttempts : Nat
  navSuccess : Bool
  navWait : Nat
  scroll : Nat × Nat × Bool
  finalState : ScraperObj
  deriving Repr

/-- One location x term iteration of the drive loop in `scrape`. -/
def termIteration (navOk : Nat → Bool) (counts : Nat → Nat)
    (running : Nat → Bool) (maxResults : Nat) (s : ScraperObj)
    (batch : List (Option Business)) : IterOutcome :=
  { navAttempts := (navRetry navOk).1
    navSuccess := (navRetry navOk).2.1
    navWait := (navRetry navOk).2.2
    scroll := scrollLoop counts running maxResults
    finalState := runBatch s batch }

/-- `GoogleMapsScraper.stop` (scraper.py 468-475). -/
def stopMethod (s : ScraperObj) : ScraperObj :=
  { s with is_running := false, is_paused := false }

/-- `GoogleMapsScraper.pause` (scraper.py 452-458). -/
def pauseMethod (s : ScraperObj) : ScraperObj :=
  { s with is_paused := true }

/-- `GoogleMapsScraper.resume` (scraper.py 460-466). -/
def resumeMethod (s : ScraperObj) : ScraperObj :=
  { s with is_paused := false }

/-- One location x term checkpoint of the drive loop (scraper.py
155-201): `self.is_running` is consulted before the iteration's work; a
cleared flag skips the batch and every later one. -/
def runIteration (s : ScraperObj) (batch : List (Option Business)) : ScraperObj :=
  if s.is_running then runBatch s batch else s

/-- The drive loop of `scrape` over its checkpointed iterations, with no
stop command delivered. -/
def driveLoop (s : ScraperObj) : List (List (Option Business)) → ScraperObj
  | [] => s
  | b :: rest => driveLoop (runIteration s b) rest

/-- The drive loop with a `stop()` command delivered just before
checkpoint `k` (or right after the loop, when `k` is past the end).
`stop()` runs on the event loop between iterations: the handlers in
main.py execute atomically with respect to the checkpoints, and
`stop_scraper` also cancels the session task, so no accept step of a
batch runs after the flag is cleared. -/
def driveWithStop (s : ScraperObj) : List (List (Option Business)) → Nat → ScraperObj
  | batches, 0 => driveLoop (stopMethod s) batches
  | [], _ + 1 => stopMethod s
  | b :: rest, k + 1 => driveWithStop (runIteration s b) rest k

/-- The FastAPI module state: the global `scraper` variable of main.py
(`None` until the first start). -/
structure ApiState where
  scraper : Option ScraperObj
  deriving DecidableEq, Repr

/-- `start_scraper` (main.py 66-96): rejected with HTTP 400 while a
scraper is running, otherwise replaces the global with a fresh instance
whose `scrape` task begins (which sets the running flag and clears the
stores, scraper.py 121-124). -/
def start_scraper (st : ApiState) : ApiState × Except String Unit :=
  match st.scraper with
  | some s =>
    if s.is_running then (st, Except.error "Scraper is already running")
    else ({ scraper := some freshRun }, Except.ok ())
  | none => ({ scraper := some freshRun }, Except.ok ())

/-- `pause_scraper` (main.py 99-112). -/
def pause_scraper (st : ApiState) : ApiState × Except String Unit :=
  match st.scraper with
  | some s =>
    if s.is_running then
      ({ scraper := some (pauseMethod s) }, Except.ok ())
    else (st, Except.error "No active scraper to pause")
  | none => (st, Except.error "No active scraper to pause")

/-- `resume_scraper` (main.py 115-128). -/
def resume_scraper (st : ApiState) : ApiState × Except String Unit :=
  match st.scraper with
  | some s =>
    if s.is_running then
      ({ scraper := some (resumeMethod s) }, Except.ok ())
    else (st, Except.error "No active scraper to resume")
  | none => (st, Except.error "No active scraper to resume")

/-- `stop_scraper` (main.py 131-151). -/
def stop_scraper (st : ApiState) : ApiState × Except String Unit :=
  match st.scraper with
  | some s => ({ scraper := some (stopMethod s) }, Except.ok ())
  | none => (st, Except.error "No active scraper to stop")

/-- `get_status` (main.py 154-170): total, never rejects. -/
def get_status (st : ApiState) : Bool × Bool × Nat :=
  match st.scraper with
  | some s => (s.is_running, s.is_paused, s.results.length)
  | none => (false, false, 0)

/-- `get_results` (main.py 173-181): total, never rejects. -/
def get_results (st : ApiState) : List Business :=
  match st.scraper with
  | some s => s.results
  | none => []

/-- The DedupKey of a record, as `process_link` computes it
(scraper.py 330). -/
def keyOf (r : Business) : String × String := make_key r.nombre r.direccion

/-- The dedup invariant tying ResultStore to SeenKeySet: stored records
have pairwise distinct DedupKeys and every stored key is registered in
the seen set. -/
def DedupInv (s : ScraperObj) : Prop :=
  (s.results.map keyOf).Nodup ∧ ∀ r ∈ s.results, keyOf r ∈ s.seen

/-- No character of the string is whitespace. -/
def spaceFree (s : String) : Bool := s.data.all (fun c => !isSpaceChar c)

/-- Neither the first nor the last character is whitespace. -/
def edgeSpaceFree (s : String) : Bool :=
  (match s.data.head? with
   | none => true
   | some c => !isSpaceChar c) &&
  (match s.data.getLast? with
   | none => true
   | some c => !isSpaceChar c)

/-- A page whose reported element count grows by one per iteration. -/
def counts5 : Nat → Nat := fun i => i

/-- A page whose reported element count never grows. -/
def counts0 : Nat → Nat := fun _ => 0

/-- A session whose running flag is never cleared. -/
def runningTrue : Nat → Bool := fun _ => true

/-- Run-collapsed whitespace: no two adjacent whitespace characters. -/
def NoTwoSpaces : List Char → Prop
  | [] => True
  | [_] => True
  | c :: d :: rest =>
    ¬(isSpaceChar c = true ∧ isSpaceChar d = true) ∧ NoTwoSpaces (d :: rest)

/-- Every whitespace character is the plain space. -/
def SpacesBlank (l : List Char) : Prop :=
  ∀ c ∈ l, isSpaceChar c = true → c = ' '

/-- No character changes under lowercasing. -/
def NoUpper (l : List Char) : Prop := ∀ c ∈ l, lowerChar c = c

/-- The first and the last character, when present, are not whitespace. -/
def EdgeTrimmed (l : List Char) : Prop :=
  (∀ c, l.head? = some c → isSpaceChar c = false) ∧
  (∀ c, l.getLast? = some c → isSpaceChar c = false)

theorem char_toNat_ofNat (n : Nat) (h : n < 55296) : (Char.ofNat n).toNat = n := by
  have hv : Nat.isValidChar n := Or.inl h
  rw [Char.ofNat, dif_pos hv]
  rfl

theorem lowerChar_fix (c : Char) (h1 : ¬(65 ≤ c.toNat ∧ c.toNat ≤ 90))
    (h2 : ¬(192 ≤ c.toNat ∧ c.toNat ≤ 222 ∧ c.toNat ≠ 215)) : lowerChar c = c := by
  unfold lowerChar
  rw [if_neg h1, if_neg h2]

theorem toNat_lowerChar_upper (c : Char)
    (h : (65 ≤ c.toNat ∧ c.toNat ≤ 90) ∨
      (192 ≤ c.toNat ∧ c.toNat ≤ 222 ∧ c.toNat ≠ 215)) :
    (lowerChar c).toNat = c.toNat + 32 := by
  unfold lowerChar
  rcases h with h | h
  · rw [if_pos h]
    exact char_toNat_ofNat _ (by omega)
  · rw [if_neg (by omega), if_pos h]
    exact char_toNat_ofNat _ (by omega)

theorem lowerChar_idem (c : Char) : lowerChar (lowerChar c) = lowerChar c := by
  by_cases h : (65 ≤ c.toNat ∧ c.toNat ≤ 90) ∨
      (192 ≤ c.toNat ∧ c.toNat ≤ 222 ∧ c.toNat ≠ 215)
  · have ht := toNat_lowerChar_upper c h
    exact lowerChar_fix _ (by omega) (by omega)
  · have hfix := lowerChar_fix c (fun hh => h (Or.inl hh)) (fun hh => h (Or.inr hh))
    rw [hfix, hfix]

theorem isSpaceChar_lowerChar (c : Char) :
    isSpaceChar (lowerChar c) = isSpaceChar c := by
  by_cases h : (65 ≤ c.toNat ∧ c.toNat ≤ 90) ∨
      (192 ≤ c.toNat ∧ c.toNat ≤ 222 ∧ c.toNat ≠ 215)
  · have ht := toNat_lowerChar_upper c h
    simp only [isSpaceChar, decide_eq_decide]
    omega
  · rw [lowerChar_fix c (fun hh => h (Or.inl hh)) (fun hh => h (Or.inr hh))]

theorem isSpaceChar_deaccentChar (c : Char) :
    isSpaceChar (deaccentChar c) = isSpaceChar c := by
  unfold deaccentChar
  split_ifs <;> subst_vars <;> rfl

theorem lowerL_idem (l : List Char) : lowerL (lowerL l) = lowerL l := by
  induction l with
  | nil => rfl
  | cons c t ih =>
    show lowerChar (lowerChar c) :: lowerL (lowerL t) = lowerChar c :: lowerL t
    rw [lowerChar_idem, ih]

theorem noUpper_lowerL (l : List Char) : NoUpper (lowerL l) := by
  intro c hc
  rcases List.mem_map.mp hc with ⟨a, _, rfl⟩
  exact lowerChar_idem a

theorem lowerL_eq_self {l : List Char} (h : NoUpper l) : lowerL l = l := by
  induction l with
  | nil => rfl
  | cons c t ih =>
    show lowerChar c :: lowerL t = c :: t
    rw [h c (List.mem_cons_self c t), ih (fun x hx => h x (List.mem_cons_of_mem c hx))]

theorem noUpper_mono {l m : List Char} (h : NoUpper l) (hs : List.Sublist m l) :
    NoUpper m :=
  fun c hc => h c (hs.subset hc)

theorem spacesBlank_mono {l m : List Char} (h : SpacesBlank l) (hs : List.Sublist m l) :
    SpacesBlank m :=
  fun c hc => h c (hs.subset hc)

theorem collapseWS_cons_cons (c d : Char) (rest : List Char) :
    collapseWS (c :: d :: rest) =
      if isSpaceChar c && isSpaceChar d then collapseWS (d :: rest)
      else (if isSpaceChar c then ' ' else c) :: collapseWS (d :: rest) := rfl

theorem collapseWS_singleton (c : Char) :
    collapseWS [c] = if isSpaceChar c then [' '] else [c] := rfl

theorem collapseWS_cons_of_not_space {d : Char} (t : List Char)
    (hd : isSpaceChar d = false) : collapseWS (d :: t) = d :: collapseWS t := by
  cases t with
  | nil => rw [collapseWS_singleton, if_neg (by simp [hd])]; rfl
  | cons e t2 =>
    rw [collapseWS_cons_cons, if_neg (by simp [hd]), if_neg (by simp [hd])]

theorem mem_collapseWS {x : Char} {l : List Char} (h : x ∈ collapseWS l) :
    x ∈ l ∨ x = ' ' := by
  induction l using collapseWS.induct with
  | case1 => simp [collapseWS] at h
  | case2 c hc =>
    rw [collapseWS_singleton, if_pos hc] at h
    right
    simpa using h
  | case3 c hc =>
    rw [collapseWS_singleton, if_neg hc] at h
    left
    exact h
  | case4 c d rest hcd ih =>
    rw [collapseWS_cons_cons, if_pos hcd] at h
    rcases ih h with hm | he
    · exact Or.inl (List.mem_cons_of_mem c hm)
    · exact Or.inr he
  | case5 c d rest hcd ih =>
    rw [collapseWS_cons_cons, if_neg hcd] at h
    rcases List.mem_cons.mp h with he | hm
    · by_cases hc : isSpaceChar c = true
      · rw [if_pos hc] at he
        exact Or.inr he
      · rw [if_neg hc] at he
        exact Or.inl (he ▸ List.mem_cons_self c _)
    · rcases ih hm with hm2 | he2
      · exact Or.inl (List.mem_cons_of_mem c hm2)
      · exact Or.inr he2

theorem spacesBlank_collapseWS (l : List Char) : SpacesBlank (collapseWS l) := by
  induction l using collapseWS.induct with
  | case1 => intro x hx _; simp [collapseWS] at hx
  | case2 c hc =>
    intro x hx _
    rw [collapseWS_singleton, if_pos hc] at hx
    simpa using hx
  | case3 c hc =>
    intro x hx hs
    rw [collapseWS_singleton, if_neg hc] at hx
    rw [List.mem_singleton.mp hx] at hs
    exact absurd hs hc
  | case4 c d rest hcd ih =>
    rw [collapseWS_cons_cons, if_pos hcd]
    exact ih
  | case5 c d rest hcd ih =>
    intro x hx hs
    rw [collapseWS_cons_cons, if_neg hcd] at hx
    rcases List.mem_cons.mp hx with he | hm
    · by_cases hc : isSpaceChar c = true
      · rw [if_pos hc] at he
        exact he
      · rw [if_neg hc] at he
        rw [he] at hs
        exact absurd hs hc
    · exact ih x hm hs

theorem noTwoSpaces_tail {c : Char} {t : List Char} (h : NoTwoSpaces (c :: t)) :
    NoTwoSpaces t := by
  cases t with
  | nil => trivial
  | cons d t2 => exact h.2

theorem noTwoSpaces_cons_left {e : Char} {M : List Char}
    (he : isSpaceChar e = false) (hM : NoTwoSpaces M) : NoTwoSpaces (e :: M) := by
  cases M with
  | nil => trivial
  | cons m t =>
    refine ⟨fun hp => ?_, hM⟩
    rw [hp.1] at he
    cases he

theorem noTwoSpaces_collapseWS (l : List Char) : NoTwoSpaces (collapseWS l) := by
  induction l using collapseWS.induct with
  | case1 => trivial
  | case2 c hc => rw [collapseWS_singleton, if_pos hc]; trivial
  | case3 c hc => rw [collapseWS_singleton, if_neg hc]; trivial
  | case4 c d rest hcd ih => rw [collapseWS_cons_cons, if_pos hcd]; exact ih
  | case5 c d rest hcd ih =>
    rw [collapseWS_cons_cons, if_neg hcd]
    by_cases hd : isSpaceChar d = true
    · have hc : isSpaceChar c = false := by
        cases hcs : isSpaceChar c
        · rfl
        · exact absurd (by simp [hcs, hd]) hcd
      rw [if_neg (by simp [hc])]
      exact noTwoSpaces_cons_left hc ih
    · have hd2 : isSpaceChar d = false := by
        cases hds : isSpaceChar d
        · rfl
        · exact absurd hds hd
      rw [collapseWS_cons_of_not_space rest hd2]
      refine ⟨fun hp => ?_, ?_⟩
      · rw [hp.2] at hd2; cases hd2
      · rw [← collapseWS_cons_of_not_space rest hd2]
        exact ih

theorem collapseWS_eq_self : ∀ {l : List Char},
    SpacesBlank l → NoTwoSpaces l → collapseWS l = l := by
  intro l
  induction l using collapseWS.induct with
  | case1 => intro _ _; rfl
  | case2 c hc =>
    intro hb _
    rw [collapseWS_singleton, if_pos hc, hb c (List.mem_singleton_self c) hc]
  | case3 c hc =>
    intro _ _
    rw [collapseWS_singleton, if_neg hc]
  | case4 c d rest hcd ih =>
    intro _ hn
    exact absurd (by simpa [Bool.and_eq_true] using hcd) hn.1
  | case5 c d rest hcd ih =>
    intro hb hn
    rw [collapseWS_cons_cons, if_neg hcd]
    have htail : collapseWS (d :: rest) = d :: rest :=
      ih (fun x hx => hb x (List.mem_cons_of_mem c hx)) (noTwoSpaces_tail hn)
    by_cases hc : isSpaceChar c = true
    · rw [if_pos hc, hb c (List.mem_cons_self c _) hc, htail]
    · rw [if_neg hc, htail]

theorem noUpper_collapseWS {l : List Char} (h : NoUpper l) :
    NoUpper (collapseWS l) := by
  intro c hc
  rcases mem_collapseWS hc with hm | he
  · exact h c hm
  · rw [he]; decide

theorem dropTrailWS_cons (c : Char) (t : List Char) :
    dropTrailWS (c :: t) =
      if (dropTrailWS t).isEmpty && isSpaceChar c then [] else c :: dropTrailWS t := rfl

theorem dropTrailWS_sublist (l : List Char) : List.Sublist (dropTrailWS l) l := by
  induction l with
  | nil => exact List.Sublist.refl _
  | cons c t ih =>
    rw [dropTrailWS_cons]
    by_cases h : ((dropTrailWS t).isEmpty && isSpaceChar c) = true
    · rw [if_pos h]; exact List.nil_sublist _
    · rw [if_neg h]; exact List.Sublist.cons₂ c ih

theorem dropTrailWS_cons_cases (c : Char) (t : List Char) :
    dropTrailWS (c :: t) = [] ∨ dropTrailWS (c :: t) = c :: dropTrailWS t := by
  rw [dropTrailWS_cons]
  by_cases h : ((dropTrailWS t).isEmpty && isSpaceChar c) = true
  · rw [if_pos h]; exact Or.inl rfl
  · rw [if_neg h]; exact Or.inr rfl

theorem noTwoSpaces_dropWhile {l : List Char} (h : NoTwoSpaces l) :
    NoTwoSpaces (l.dropWhile isSpaceChar) := by
  induction l with
  | nil => trivial
  | cons c t ih =>
    by_cases hc : isSpaceChar c = true
    · rw [List.dropWhile_cons_of_pos hc]
      exact ih (noTwoSpaces_tail h)
    · rw [List.dropWhile_cons_of_neg hc]
      exact h

theorem noTwoSpaces_dropTrailWS {l : List Char} (h : NoTwoSpaces l) :
    NoTwoSpaces (dropTrailWS l) := by
  induction l with
  | nil => trivial
  | cons c t ih =>
    rw [dropTrailWS_cons]
    by_cases hb : ((dropTrailWS t).isEmpty && isSpaceChar c) = true
    · rw [if_pos hb]; trivial
    · rw [if_neg hb]
      cases t with
      | nil => trivial
      | cons d t2 =>
        rcases dropTrailWS_cons_cases d t2 with he | he
        · rw [he]; trivial
        · rw [he]
          exact ⟨h.1, he ▸ ih (noTwoSpaces_tail h)⟩

theorem dropTrailWS_idem (l : List Char) :
    dropTrailWS (dropTrailWS l) = dropTrailWS l := by
  induction l with
  | nil => rfl
  | cons c t ih =>
    rw [dropTrailWS_cons]
    by_cases hb : ((dropTrailWS t).isEmpty && isSpaceChar c) = true
    · rw [if_pos hb]; rfl
    · rw [if_neg hb, dropTrailWS_cons, ih, if_neg hb]

theorem isSpaceChar_getLast_dropTrailWS :
    ∀ {l : List Char} {c : Char}, (dropTrailWS l).getLast? = some c →
      isSpaceChar c = false := by
  intro l
  induction l with
  | nil => intro c h; cases h
  | cons a t ih =>
    intro c h
    rw [dropTrailWS_cons] at h
    by_cases hb : ((dropTrailWS t).isEmpty && isSpaceChar a) = true
    · rw [if_pos hb] at h; cases h
    · rw [if_neg hb] at h
      cases he : dropTrailWS t with
      | nil =>
        rw [he] at h
        have hc : a = c := by simpa using h
        subst hc
        rw [he] at hb
        simpa using hb
      | cons m t2 =>
        rw [he] at h
        rw [List.getLast?_cons_cons] at h
        exact ih (he ▸ h)

theorem isSpaceChar_head_dropWhile {l : List Char} {c : Char}
    (h : (l.dropWhile isSpaceChar).head? = some c) : isSpaceChar c = false := by
  have hh := List.head?_dropWhile_not isSpaceChar l
  rw [h] at hh
  exact hh

theorem head?_dropTrailWS (l : List Char) :
    (dropTrailWS l).head? = l.head? ∨ dropTrailWS l = [] := by
  cases l with
  | nil => exact Or.inr rfl
  | cons c t =>
    rcases dropTrailWS_cons_cases c t with h | h
    · exact Or.inr h
    · rw [h]; exact Or.inl rfl

theorem stripL_idem (l : List Char) : stripL (stripL l) = stripL l := by
  unfold stripL
  have hdw : (dropTrailWS (l.dropWhile isSpaceChar)).dropWhile isSpaceChar =
      dropTrailWS (l.dropWhile isSpaceChar) := by
    rcases head?_dropTrailWS (l.dropWhile isSpaceChar) with h | h
    · cases hh : dropTrailWS (l.dropWhile isSpaceChar) with
      | nil => rfl
      | cons m t2 =>
        rw [hh] at h
        have hm : isSpaceChar m = false := isSpaceChar_head_dropWhile h.symm
        rw [List.dropWhile_cons_of_neg (by rw [hm]; exact Bool.false_ne_true)]
    · rw [h]; rfl
  rw [hdw, dropTrailWS_idem]

theorem stripL_sublist (l : List Char) : List.Sublist (stripL l) l :=
  (dropTrailWS_sublist _).trans (List.dropWhile_sublist _)

theorem normKeyL_sublist (l : List Char) :
    List.Sublist (normKeyL l) (collapseWS (lowerL l)) := stripL_sublist _

theorem noUpper_normKeyL (l : List Char) : NoUpper (normKeyL l) :=
  noUpper_mono (noUpper_collapseWS (noUpper_lowerL l)) (normKeyL_sublist l)

theorem spacesBlank_normKeyL (l : List Char) : SpacesBlank (normKeyL l) :=
  spacesBlank_mono (spacesBlank_collapseWS (lowerL l)) (normKeyL_sublist l)

theorem noTwoSpaces_normKeyL (l : List Char) : NoTwoSpaces (normKeyL l) :=
  noTwoSpaces_dropTrailWS (noTwoSpaces_dropWhile (noTwoSpaces_collapseWS (lowerL l)))

theorem edgeTrimmed_normKeyL (l : List Char) : EdgeTrimmed (normKeyL l) := by
  constructor
  · intro c hc
    unfold normKeyL stripL at hc
    rcases head?_dropTrailWS ((collapseWS (lowerL l)).dropWhile isSpaceChar) with h | h
    · rw [h] at hc
      exact isSpaceChar_head_dropWhile hc
    · rw [h] at hc; cases hc
  · intro c hc
    exact isSpaceChar_getLast_dropTrailWS hc

theorem normKeyL_idem (l : List Char) : normKeyL (normKeyL l) = normKeyL l := by
  have h1 : lowerL (normKeyL l) = normKeyL l := lowerL_eq_self (noUpper_normKeyL l)
  have h2 : collapseWS (normKeyL l) = normKeyL l :=
    collapseWS_eq_self (spacesBlank_normKeyL l) (noTwoSpaces_normKeyL l)
  show stripL (collapseWS (lowerL (normKeyL l))) = normKeyL l
  rw [h1, h2]
  show stripL (stripL (collapseWS (lowerL l))) = normKeyL l
  rw [stripL_idem]
  rfl

theorem normKey_idem (s : String) : normKey (normKey s) = normKey s := by
  unfold normKey
  show String.mk (normKeyL (normKeyL s.data)) = String.mk (normKeyL s.data)
  rw [normKeyL_idem]

theorem normKey_lowerS (s : String) : normKey (lowerS s) = normKey s := by
  unfold normKey lowerS
  show String.mk (stripL (collapseWS (lowerL (lowerL s.data)))) =
    String.mk (normKeyL s.data)
  rw [lowerL_idem]
  rfl

theorem bool_eq_false_of_ne_true {b : Bool} (h : ¬b = true) : b = false := by
  cases b
  · rfl
  · exact absurd rfl h

theorem process_link_not_running {s : ScraperObj} (h : s.is_running = false)
    (x : Option Business) : process_link s x = s := by
  unfold process_link
  rw [if_pos h]

theorem process_link_some (s : ScraperObj) (r : Business)
    (h : s.is_running = true) :
    process_link s (some r) =
      if r.nombre ≠ "" then
        if s.seen.contains (make_key r.nombre r.direccion) = true then s
        else { s with seen := make_key r.nombre r.direccion :: s.seen,
                      results := s.results ++ [r] }
      else s := by
  unfold process_link
  rw [if_neg (by simp [h])]

theorem process_link_discard {s : ScraperObj} {r : Business}
    (h : s.seen.contains (keyOf r) = true) :
    (process_link s (some r)).results = s.results := by
  have h2 : s.seen.contains (make_key r.nombre r.direccion) = true := h
  by_cases hrun : s.is_running = true
  · rw [process_link_some s r hrun]
    by_cases hn : r.nombre ≠ ""
    · rw [if_pos hn, if_pos h2]
    · rw [if_neg hn]
  · rw [process_link_not_running (bool_eq_false_of_ne_true hrun)]

theorem process_link_accept {s : ScraperObj} {r : Business}
    (hrun : s.is_running = true) (hn : r.nombre ≠ "")
    (hk : s.seen.contains (keyOf r) = false) :
    (process_link s (some r)).results = s.results ++ [r] ∧
    (process_link s (some r)).seen = keyOf r :: s.seen := by
  have hk2 : s.seen.contains (make_key r.nombre r.direccion) = false := hk
  rw [process_link_some s r hrun, if_pos hn, if_neg (by rw [hk2]; simp)]
  exact ⟨rfl, rfl⟩

theorem process_link_dedupInv {s : ScraperObj} (h : DedupInv s)
    (x : Option Business) : DedupInv (process_link s x) := by
  by_cases hrun : s.is_running = true
  · cases x with
    | none =>
      unfold process_link
      rw [if_neg (by simp [hrun])]
      exact h
    | some data =>
      rw [process_link_some s data hrun]
      by_cases hn : data.nombre ≠ ""
      · rw [if_pos hn]
        by_cases hk : s.seen.contains (make_key data.nombre data.direccion) = true
        · rw [if_pos hk]; exact h
        · rw [if_neg hk]
          have hkm : make_key data.nombre data.direccion ∉ s.seen := by
            intro hmem
            exact hk (by simpa [List.contains] using hmem)
          constructor
          · show ((s.results ++ [data]).map keyOf).Nodup
            rw [List.map_append, List.nodup_append]
            refine ⟨h.1, List.nodup_singleton _, ?_⟩
            intro a ha hb
            rcases List.mem_map.mp ha with ⟨r, hrmem, rfl⟩
            have hsing : keyOf r = keyOf data := by simpa using hb
            have hks : keyOf data ∈ s.seen := hsing ▸ h.2 r hrmem
            exact hkm hks
          · intro r hrmem
            show keyOf r ∈ make_key data.nombre data.direccion :: s.seen
            rcases List.mem_append.mp hrmem with hold | hnew
            · exact List.mem_cons_of_mem _ (h.2 r hold)
            · rw [List.mem_singleton.mp hnew]
              exact List.mem_cons_self _ _
      · rw [if_neg hn]; exact h
  · rw [process_link_not_running (bool_eq_false_of_ne_true hrun)]
    exact h

theorem runBatch_dedupInv {s : ScraperObj} (h : DedupInv s)
    (batch : List (Option Business)) : DedupInv (runBatch s batch) := by
  induction batch generalizing s with
  | nil => exact h
  | cons x rest ih => exact ih (process_link_dedupInv h x)

/-- C1: after a session starts (running flag set, SeenKeySet and
ResultStore cleared, scraper.py 121-124), any sequence of `process_link`
accept steps -- each one an atomic check-and-insert of the record's
DedupKey into the SeenKeySet followed by the ResultStore append, with
already-present keys discarded (scraper.py 330-333) -- leaves the
ResultStore free of two records with equal DedupKeys.  The list `batch`
ranges over every interleaving order the cooperative scheduler can
produce for the concurrently extracted candidates. -/
theorem resultStore_dedupKeys_nodup (batch : List (Option Business)) :
    ((runBatch freshRun batch).results.map keyOf).Nodup := by
  have hinv : DedupInv freshRun := by
    constructor
    · exact List.nodup_nil
    · intro r hr
      simp [freshRun] at hr
  exact (runBatch_dedupInv hinv batch).1

/-- C9: DedupKey normalization is idempotent: re-normalizing the
already-normalized components of `_make_key` changes nothing, so
`key(s) = key(normalize(s))`. -/
theorem make_key_idempotent (nombre direccion : String) :
    make_key (normKey nombre) (normKey direccion) = make_key nombre direccion := by
  unfold make_key
  rw [normKey_idem, normKey_idem]

/-- C2 counterexample: the DedupKey does not strip diacritics.  On the
name `"Café"` the key `_make_key` computes keeps the accented `é`, while
the pair of spec-described normalizations (lowercase, strip diacritics,
collapse whitespace, trim) maps it to `"cafe"`. -/
theorem make_key_diacritics_counterexample :
    make_key "Café" "Av. Principal 123" ≠
      (specKeyNorm "Café", specKeyNorm "Av. Principal 123") := by decide

/-- C2 (amended): the DedupKey is the pair of the two strings each
lowercased, with every whitespace run collapsed to a single space and
leading/trailing whitespace trimmed -- but with diacritics kept; two
records with equal DedupKey are treated as the same business and only
the first inserted one survives.  Formally: both key components are
fixed under lowercasing, contain only plain single spaces as whitespace
with no two adjacent and none at either edge; the key is insensitive to
the case of its inputs; and `process_link` discards a record whose key
is already registered while appending a fresh-keyed record. -/
theorem make_key_amended_spec (nombre direccion : String) :
    NoUpper (make_key nombre direccion).1.data ∧
    SpacesBlank (make_key nombre direccion).1.data ∧
    NoTwoSpaces (make_key nombre direccion).1.data ∧
    EdgeTrimmed (make_key nombre direccion).1.data ∧
    NoUpper (make_key nombre direccion).2.data ∧
    SpacesBlank (make_key nombre direccion).2.data ∧
    NoTwoSpaces (make_key nombre direccion).2.data ∧
    EdgeTrimmed (make_key nombre direccion).2.data ∧
    make_key (lowerS nombre) (lowerS direccion) = make_key nombre direccion ∧
    (∀ s r, s.seen.contains (keyOf r) = true →
      (process_link s (some r)).results = s.results) ∧
    (∀ s r, s.is_running = true → r.nombre ≠ "" →
      s.seen.contains (keyOf r) = false →
      (process_link s (some r)).results = s.results ++ [r]) := by
  refine ⟨noUpper_normKeyL nombre.data, spacesBlank_normKeyL nombre.data,
    noTwoSpaces_normKeyL nombre.data, edgeTrimmed_normKeyL nombre.data,
    noUpper_normKeyL direccion.data, spacesBlank_normKeyL direccion.data,
    noTwoSpaces_normKeyL direccion.data, edgeTrimmed_normKeyL direccion.data,
    ?_, ?_, ?_⟩
  · unfold make_key
    rw [normKey_lowerS, normKey_lowerS]
  · intro s r h
    exact process_link_discard h
  · intro s r hrun hn hk
    exact (process_link_accept hrun hn hk).1

/-- Witness for C2's amended theorem: a second extraction of the same
business differing only in case and whitespace is discarded, so the
ResultStore keeps only the first record. -/
theorem make_key_amended_spec_witness :
    (process_link
      ⟨true, false, [make_key "Botica Central" "Av. Principal 123"], []⟩
      (some ⟨"  botica CENTRAL ", "Av.  Principal   123", "", "", "", "", "",
        "", ""⟩)).results = [] := by
  obtain ⟨-, -, -, -, -, -, -, -, -, hdisc, -⟩ := make_key_amended_spec "" ""
  exact hdisc _ _ (by decide)

theorem spaceFree_spec {s : String} (h : spaceFree s = true) :
    ∀ c ∈ s.data, isSpaceChar c = false := by
  intro c hc
  have hb := List.all_eq_true.mp h c hc
  simpa using hb

theorem edgeSpaceFree_spec {s : String} (h : edgeSpaceFree s = true) :
    (∀ c, s.data.head? = some c → isSpaceChar c = false) ∧
    (∀ c, s.data.getLast? = some c → isSpaceChar c = false) := by
  unfold edgeSpaceFree at h
  rw [Bool.and_eq_true] at h
  constructor
  · intro c hc
    have h1 := h.1
    rw [hc] at h1
    simpa using h1
  · intro c hc
    have h2 := h.2
    rw [hc] at h2
    simpa using h2

theorem edge_of_all_not_space {l : List Char}
    (h : ∀ c ∈ l, isSpaceChar c = false) :
    (∀ c, l.head? = some c → isSpaceChar c = false) ∧
    (∀ c, l.getLast? = some c → isSpaceChar c = false) :=
  ⟨fun c hc => h c (List.mem_of_mem_head? (Option.mem_def.mpr hc)),
   fun c hc => h c (List.mem_of_getLast?_eq_some hc)⟩

theorem isSubstring_subset : ∀ {n h : List Char}, isSubstring n h = true →
    ∀ c ∈ n, c ∈ h := by
  intro n h
  induction h with
  | nil =>
    intro hs c hc
    unfold isSubstring at hs
    have hn : n = [] := by simpa using hs
    subst hn
    cases hc
  | cons x t ih =>
    intro hs c hc
    unfold isSubstring at hs
    rw [Bool.or_eq_true] at hs
    rcases hs with hp | hrec
    · exact (List.isPrefixOf_iff_prefix.mp hp).sublist.subset hc
    · exact List.mem_cons_of_mem x (ih hrec c hc)

theorem matchesEntry_edge {rn : String} {entry : String × List String}
    (hmem : entry ∈ sinonimos) (hm : matchesEntry rn entry = true) :
    (∀ c, rn.data.head? = some c → isSpaceChar c = false) ∧
    (∀ c, rn.data.getLast? = some c → isSpaceChar c = false) := by
  have hTab : ∀ e ∈ sinonimos, spaceFree (normalize_text e.1) = true ∧
      (∀ t ∈ e.2, edgeSpaceFree (normalize_text t) = true) := by decide
  obtain ⟨hkey, hsyn⟩ := hTab entry hmem
  unfold matchesEntry at hm
  simp only [Bool.or_eq_true] at hm
  rcases hm with (heq | hcont) | hsub
  · have hrn : rn = normalize_text entry.1 := by simpa using heq
    subst hrn
    exact edge_of_all_not_space (spaceFree_spec hkey)
  · have hrn : rn ∈ entry.2.map normalize_text := by simpa [List.contains] using hcont
    rcases List.mem_map.mp hrn with ⟨t, ht, hteq⟩
    subst hteq
    exact edgeSpaceFree_spec (hsyn t ht)
  · have hall : ∀ c ∈ rn.data, isSpaceChar c = false := fun c hc =>
      spaceFree_spec hkey c (isSubstring_subset hsub c hc)
    exact edge_of_all_not_space hall

theorem dropTrailWS_eq_self : ∀ {l : List Char},
    (∀ c, l.getLast? = some c → isSpaceChar c = false) → dropTrailWS l = l := by
  intro l
  induction l with
  | nil => intro _; rfl
  | cons c t ih =>
    intro hl
    rw [dropTrailWS_cons]
    cases t with
    | nil =>
      have hc : isSpaceChar c = false := hl c (by simp)
      rw [show dropTrailWS ([] : List Char) = [] from rfl, if_neg (by simp [hc])]
    | cons d t2 =>
      have ht := ih (fun x hx => hl x (by rw [List.getLast?_cons_cons]; exact hx))
      rw [ht, if_neg (by simp)]

theorem stripL_eq_self {l : List Char}
    (hh : ∀ c, l.head? = some c → isSpaceChar c = false)
    (hl : ∀ c, l.getLast? = some c → isSpaceChar c = false) : stripL l = l := by
  unfold stripL
  cases l with
  | nil => rfl
  | cons c t =>
    have hc : isSpaceChar c = false := hh c rfl
    rw [List.dropWhile_cons_of_neg (by simp [hc])]
    exact dropTrailWS_eq_self hl

theorem isSpaceChar_normChar (c : Char) :
    isSpaceChar (deaccentChar (lowerChar c)) = isSpaceChar c := by
  rw [isSpaceChar_deaccentChar, isSpaceChar_lowerChar]

theorem stripS_eq_self_of_norm (rubro : String)
    (hh : ∀ c, (normalize_text rubro).data.head? = some c → isSpaceChar c = false)
    (hl : ∀ c, (normalize_text rubro).data.getLast? = some c → isSpaceChar c = false) :
    stripS rubro = rubro := by
  have hdata : (normalize_text rubro).data =
      rubro.data.map (fun c => deaccentChar (lowerChar c)) := rfl
  have hh2 : ∀ c, rubro.data.head? = some c → isSpaceChar c = false := by
    intro c hc
    have hm : (normalize_text rubro).data.head? =
        some (deaccentChar (lowerChar c)) := by
      rw [hdata, List.head?_map, hc]
      rfl
    have hsp := hh _ hm
    rwa [isSpaceChar_normChar] at hsp
  have hl2 : ∀ c, rubro.data.getLast? = some c → isSpaceChar c = false := by
    intro c hc
    have hm : (normalize_text rubro).data.getLast? =
        some (deaccentChar (lowerChar c)) := by
      rw [hdata, List.getLast?_map, hc]
      rfl
    have hsp := hl _ hm
    rwa [isSpaceChar_normChar] at hsp
  show String.mk (stripL rubro.data) = rubro
  rw [stripL_eq_self hh2 hl2]

theorem dedupByNorm_cons_nil (r : String) (ts : List String) :
    dedupByNorm (r :: ts) [] = r :: dedupByNorm ts [normalize_text r] := by
  simp only [dedupByNorm]
  rw [if_neg (by simp)]

theorem expandLoop_no_match (r rn : String) :
    ∀ tbl, (∀ e ∈ tbl, matchesEntry rn e = false) → expandLoop r rn tbl = [r] := by
  intro tbl
  induction tbl with
  | nil => intro _; rfl
  | cons e rest ih =>
    intro hall
    unfold expandLoop
    rw [if_neg (by rw [hall e (List.mem_cons_self e rest)]; simp)]
    exact ih (fun x hx => hall x (List.mem_cons_of_mem e hx))

theorem expandLoop_append (r rn : String) (pre : List (String × List String))
    (entry : String × List String) (post : List (String × List String))
    (hpre : ∀ e ∈ pre, matchesEntry rn e = false)
    (hm : matchesEntry rn entry = true) :
    expandLoop r rn (pre ++ entry :: post) =
      (dedupByNorm (stripS r :: entry.2) []).take 3 := by
  induction pre with
  | nil =>
    show expandLoop r rn (entry :: post) = _
    unfold expandLoop
    rw [if_pos hm]
  | cons e pre2 ih =>
    show expandLoop r rn (e :: (pre2 ++ entry :: post)) = _
    unfold expandLoop
    rw [if_neg (by rw [hpre e (List.mem_cons_self e pre2)]; simp)]
    exact ih (fun x hx => hpre x (List.mem_cons_of_mem e hx))

theorem expandLoop_length (r rn : String) :
    ∀ tbl, 1 ≤ (expandLoop r rn tbl).length := by
  intro tbl
  induction tbl with
  | nil => simp [expandLoop]
  | cons e rest ih =>
    unfold expandLoop
    by_cases hm : matchesEntry rn e = true
    · rw [if_pos hm, dedupByNorm_cons_nil, List.take_succ_cons]
      simp
    · rw [if_neg hm]
      exact ih

/-- C3: for every category string, if its normalized form matches a
synonym-table entry -- equal to the normalized key, equal to one of the
normalized synonyms, or a substring of the normalized key -- then
`expand_search_term` returns the original term followed by that (first
matching) entry's synonyms, deduplicated by normalized form and
truncated to at most 3 phrases, with the original term first; if no
entry matches it returns exactly `[category]`; the result always has at
least one term; and `"restaurante"` yields
`["restaurante", "restaurant", "comida"]`. -/
theorem expand_search_term_spec :
    (∀ rubro : String,
      (∀ e ∈ sinonimos, matchesEntry (normalize_text rubro) e = false) →
        expand_search_term rubro = [rubro]) ∧
    (∀ rubro : String, ∀ pre entry post,
      sinonimos = pre ++ entry :: post →
      (∀ e ∈ pre, matchesEntry (normalize_text rubro) e = false) →
      matchesEntry (normalize_text rubro) entry = true →
        expand_search_term rubro = (dedupByNorm (rubro :: entry.2) []).take 3 ∧
        (expand_search_term rubro).head? = some rubro ∧
        (expand_search_term rubro).length ≤ 3) ∧
    (∀ rubro : String, 1 ≤ (expand_search_term rubro).length) ∧
    expand_search_term "restaurante" = ["restaurante", "restaurant", "comida"] := by
  refine ⟨?_, ?_, ?_, by decide⟩
  · intro rubro hall
    exact expandLoop_no_match rubro (normalize_text rubro) sinonimos hall
  · intro rubro pre entry post htab hpre hm
    have hmem : entry ∈ sinonimos := by
      rw [htab]
      exact List.mem_append_right pre (List.mem_cons_self _ _)
    obtain ⟨hh, hl⟩ := matchesEntry_edge hmem hm
    have hstrip : stripS rubro = rubro := stripS_eq_self_of_norm rubro hh hl
    have hexp : expand_search_term rubro =
        (dedupByNorm (rubro :: entry.2) []).take 3 := by
      unfold expand_search_term
      rw [htab, expandLoop_append rubro (normalize_text rubro) pre entry post
        hpre hm, hstrip]
    refine ⟨hexp, ?_, ?_⟩
    · rw [hexp, dedupByNorm_cons_nil, List.take_succ_cons]
      rfl
    · rw [hexp]
      exact List.length_take_le _ _
  · intro rubro
    exact expandLoop_length rubro (normalize_text rubro) sinonimos

/-- Witness for C3: a category with no synonym match passes through
unchanged, and `"hotel"` (matching the second table entry, with the
first entry not matching) expands to the original term plus that entry's
synonyms, deduplicated and truncated to 3. -/
theorem expand_search_term_spec_witness :
    expand_search_term "zzz" = ["zzz"] ∧
    expand_search_term "hotel" =
      (dedupByNorm ("hotel" ::
        ["hospedaje", "alojamiento", "hostal", "lodge", "inn"]) []).take 3 := by
  constructor
  · exact expand_search_term_spec.1 "zzz" (by decide)
  · exact (expand_search_term_spec.2.1 "hotel"
      [("restaurante", ["restaurant", "comida", "food", "gastronomía", "cocina"])]
      ("hotel", ["hospedaje", "alojamiento", "hostal", "lodge", "inn"])
      (sinonimos.drop 2) (by decide) (by decide) (by decide)).1

/-- C4: if the normalized region (`strip` then `lower`) equals the
designated capital region `"lima"`, the Region Expander returns the
fixed ordered list of 32 strings `"<district>, Lima, <country>"` (each
ending in `", Lima, Perú"` when the country is `"Perú"`); for every
other region it returns exactly `["<region>, <country>"]`. -/
theorem build_location_terms_spec (departamento pais : String) :
    (lowerS (stripS departamento) = "lima" →
      build_location_terms departamento pais =
        distritos_lima.map (fun distrito => distrito ++ ", Lima, " ++ pais) ∧
      (build_location_terms departamento pais).length = 32 ∧
      build_location_terms departamento pais ≠ [] ∧
      (pais = "Perú" → ∀ s ∈ build_location_terms departamento pais,
        List.IsSuffix ", Lima, Perú".data s.data)) ∧
    (lowerS (stripS departamento) ≠ "lima" →
      build_location_terms departamento pais = [departamento ++ ", " ++ pais]) := by
  constructor
  · intro h
    have heq : build_location_terms departamento pais =
        distritos_lima.map (fun distrito => distrito ++ ", Lima, " ++ pais) := by
      unfold build_location_terms
      rw [if_pos h]
    refine ⟨heq, ?_, ?_, ?_⟩
    · rw [heq, List.length_map]
      rfl
    · rw [heq]
      simp [distritos_lima]
    · intro hpais s hs
      subst hpais
      rw [heq] at hs
      rcases List.mem_map.mp hs with ⟨d, _, rfl⟩
      refine ⟨d.data, ?_⟩
      show d.data ++ ", Lima, Perú".data = (d ++ ", Lima, " ++ "Perú").data
      rw [String.data_append, String.data_append, List.append_assoc]
      rfl
  · intro h
    unfold build_location_terms
    rw [if_neg h]

/-- Witness for C4: `"Lima"` normalizes to the capital region and fans
out into the 32 district strings; `"Cusco"` maps to the single combined
string. -/
theorem build_location_terms_spec_witness :
    build_location_terms "Lima" "Perú" =
      distritos_lima.map (fun distrito => distrito ++ ", Lima, " ++ "Perú") ∧
    build_location_terms "Cusco" "Perú" = ["Cusco" ++ ", " ++ "Perú"] := by
  constructor
  · exact ((build_location_terms_spec "Lima" "Perú").1 (by decide)).1
  · exact (build_location_terms_spec "Cusco" "Perú").2 (by decide)

theorem scrollGo_spec (counts : Nat → Nat) (running : Nat → Bool) (maxR : Nat) :
    ∀ fuel prev nc sc, fuel + sc = 100 → nc ≤ 8 →
      (scrollGo counts running maxR fuel prev nc sc).2.1 ≤ 100 ∧
      ((scrollGo counts running maxR fuel prev nc sc).2.2 = true →
        maxR ≤ counts (scrollGo counts running maxR fuel prev nc sc).2.1) ∧
      ((scrollGo counts running maxR fuel prev nc sc).2.2 = false →
        (scrollGo counts running maxR fuel prev nc sc).2.1 = 100 ∨
        (scrollGo counts running maxR fuel prev nc sc).1 = 8 ∨
        running (scrollGo counts running maxR fuel prev nc sc).2.1 = false) := by
  intro fuel
  induction fuel with
  | zero =>
    intro prev nc sc hf hn
    refine ⟨?_, ?_, ?_⟩
    · show sc ≤ 100
      omega
    · intro hco
      simp [scrollGo] at hco
    · intro _
      show sc = 100 ∨ nc = 8 ∨ running sc = false
      exact Or.inl (by omega)
  | succ fuel ih =>
    intro prev nc sc hf hn
    simp only [scrollGo]
    by_cases hg : nc < 8 ∧ running sc = true
    · rw [if_pos hg]
      by_cases hhit : maxR ≤ counts sc
      · rw [if_pos hhit]
        refine ⟨?_, ?_, ?_⟩
        · show sc ≤ 100
          omega
        · intro _
          show maxR ≤ counts sc
          exact hhit
        · intro hco
          simp at hco
      · rw [if_neg hhit]
        by_cases heq : counts sc = prev
        · rw [if_pos heq]
          exact ih prev (nc + 1) (sc + 1) (by omega) (by omega)
        · rw [if_neg heq]
          exact ih (counts sc) 0 (sc + 1) (by omega) (by omega)
    · rw [if_neg hg]
      refine ⟨?_, ?_, ?_⟩
      · show sc ≤ 100
        omega
      · intro hco
        simp at hco
      · intro _
        show sc = 100 ∨ nc = 8 ∨ running sc = false
        by_cases hnc : nc < 8
        · exact Or.inr (Or.inr (bool_eq_false_of_ne_true (fun hr => hg ⟨hnc, hr⟩)))
        · exact Or.inr (Or.inl (by omega))

/-- C5: for every target count and every sequence of element counts the
page reports, the scroll loop terminates after at most 100 scroll
iterations, and when it stops without the session being stopped it is
because the observed count reached the target (flag `true`) or because
the count failed to grow for 8 consecutive iterations, even if the
target is unmet. -/
theorem scroll_convergence_terminates (counts : Nat → Nat) (running : Nat → Bool)
    (maxResults : Nat) :
    (scrollLoop counts running maxResults).2.1 ≤ 100 ∧
    ((scrollLoop counts running maxResults).2.2 = true →
      maxResults ≤ counts (scrollLoop counts running maxResults).2.1) ∧
    ((scrollLoop counts running maxResults).2.2 = false →
      (scrollLoop counts running maxResults).2.1 = 100 ∨
      (scrollLoop counts running maxResults).1 = 8 ∨
      running (scrollLoop counts running maxResults).2.1 = false) :=
  scrollGo_spec counts running maxResults 100 0 0 0 rfl (by omega)

/-- Witness for C5: with counts growing one per iteration and target 5,
the loop stops with the target reached; with counts stuck at 0 and
target 1, the loop stops by the no-growth streak. -/
theorem scroll_convergence_terminates_witness :
    (5 ≤ counts5 (scrollLoop counts5 runningTrue 5).2.1 ∧
      (scrollLoop counts5 runningTrue 5).2.1 ≤ 100) ∧
    ((scrollLoop counts0 runningTrue 1).2.1 = 100 ∨
      (scrollLoop counts0 runningTrue 1).1 = 8 ∨
      runningTrue (scrollLoop counts0 runningTrue 1).2.1 = false) := by
  constructor
  · exact ⟨(scroll_convergence_terminates counts5 runningTrue 5).2.1 (by decide),
      (scroll_convergence_terminates counts5 runningTrue 5).1⟩
  · exact (scroll_convergence_terminates counts0 runningTrue 1).2.2 (by decide)

/-- C6: per location x term iteration, navigation is attempted at most 3
times -- exactly up to the first success -- with a 2-time-unit sleep
after each failed non-final attempt; a successful attempt ends the
retry loop immediately; and whether or not all 3 attempts fail, the
iteration still runs the scroll stage and the extraction batch, so a
navigation failure never terminates the session. -/
theorem nav_retry_spec (navOk : Nat → Bool) (counts : Nat → Nat)
    (running : Nat → Bool) (maxResults : Nat) (s : ScraperObj)
    (batch : List (Option Business)) :
    navRetry navOk = (firstNavSuccess navOk, navOk 1 || navOk 2 || navOk 3,
      2 * (firstNavSuccess navOk - 1)) ∧
    1 ≤ firstNavSuccess navOk ∧ firstNavSuccess navOk ≤ 3 ∧
    (termIteration navOk counts running maxResults s batch).finalState =
      runBatch s batch ∧
    (termIteration navOk counts running maxResults s batch).scroll =
      scrollLoop counts running maxResults := by
  refine ⟨?_, ?_, ?_, rfl, rfl⟩
  · unfold navRetry firstNavSuccess
    by_cases h1 : navOk 1 = true
    · simp [navGo, h1]
    · by_cases h2 : navOk 2 = true
      · simp [navGo, h1, h2]
      · by_cases h3 : navOk 3 = true
        · simp [navGo, h1, h2, h3]
        · simp [navGo, h1, h2, h3]
  · unfold firstNavSuccess
    split_ifs <;> omega
  · unfold firstNavSuccess
    split_ifs <;> omega

theorem runIteration_not_running {s : ScraperObj} (h : s.is_running = false)
    (b : List (Option Business)) : runIteration s b = s := by
  unfold runIteration
  rw [if_neg (by simp [h])]

theorem driveLoop_not_running {s : ScraperObj} (h : s.is_running = false) :
    ∀ batches, driveLoop s batches = s := by
  intro batches
  induction batches with
  | nil => rfl
  | cons b rest ih =>
    show driveLoop (runIteration s b) rest = s
    rw [runIteration_not_running h]
    exact ih

theorem driveWithStop_zero (s : ScraperObj) (batches : List (List (Option Business))) :
    driveWithStop s batches 0 = stopMethod s := by
  cases batches with
  | nil => exact driveLoop_not_running rfl []
  | cons b rest => exact driveLoop_not_running rfl (b :: rest)

/-- C7: `stop()` immediately clears the running flag, so `status()`
reports not-running right away; and however the stop command interleaves
with the drive loop's checkpoints (stop delivered just before checkpoint
`k`), the final ResultStore holds exactly the records accepted by the
iterations that completed before the stop took effect -- no record is
appended afterwards, because every checkpoint consults the flag before
running its batch. -/
theorem stop_spec :
    (∀ st s, st.scraper = some s →
      (get_status (stop_scraper st).1).1 = false) ∧
    (∀ (s : ScraperObj) batches k,
      (driveWithStop s batches k).is_running = false ∧
      (driveWithStop s batches k).results =
        (driveLoop s (batches.take k)).results) := by
  constructor
  · intro st s hs
    unfold stop_scraper
    rw [hs]
    rfl
  · intro s batches k
    induction batches generalizing s k with
    | nil =>
      cases k with
      | zero => rw [driveWithStop_zero]; exact ⟨rfl, rfl⟩
      | succ k => exact ⟨rfl, rfl⟩
    | cons b rest ih =>
      cases k with
      | zero => rw [driveWithStop_zero]; exact ⟨rfl, rfl⟩
      | succ k =>
        have heq : driveWithStop s (b :: rest) (k + 1) =
            driveWithStop (runIteration s b) rest k := rfl
        rw [heq]
        obtain ⟨h1, h2⟩ := ih (runIteration s b) k
        refine ⟨h1, ?_⟩
        rw [h2, List.take_succ_cons]
        rfl

/-- Witness for C7: stopping a freshly started session makes `status()`
report not-running. -/
theorem stop_spec_witness :
    (get_status (stop_scraper { scraper := some freshRun }).1).1 = false :=
  stop_spec.1 { scraper := some freshRun } freshRun rfl

/-- C8: `start()` while a session is running is rejected and leaves the
module state -- and hence the running session's ResultStore, SeenKeySet
and flags -- untouched; `pause()`, `resume()` and `stop()` with no
session object are rejected without side effects. -/
theorem command_rejections :
    (∀ st s, st.scraper = some s → s.is_running = true →
      start_scraper st = (st, Except.error "Scraper is already running")) ∧
    (∀ st, st.scraper = none →
      pause_scraper st = (st, Except.error "No active scraper to pause") ∧
      resume_scraper st = (st, Except.error "No active scraper to resume") ∧
      stop_scraper st = (st, Except.error "No active scraper to stop")) := by
  constructor
  · intro st s hs hrun
    unfold start_scraper
    rw [hs]
    show (if s.is_running = true then (st, Except.error "Scraper is already running")
      else ({ scraper := some freshRun }, Except.ok ())) = _
    rw [if_pos hrun]
  · intro st hn
    unfold pause_scraper resume_scraper stop_scraper
    rw [hn]
    exact ⟨rfl, rfl, rfl⟩

/-- Witness for C8: starting over a running session is rejected with the
state unchanged, and pausing with no session is rejected. -/
theorem command_rejections_witness :
    start_scraper { scraper := some freshRun } =
      ({ scraper := some freshRun }, Except.error "Scraper is already running") ∧
    pause_scraper { scraper := none } =
      ({ scraper := none }, Except.error "No active scraper to pause") := by
  constructor
  · exact command_rejections.1 _ freshRun rfl rfl
  · exact (command_rejections.2 { scraper := none } rfl).1

/-- C10: when no session has ever been created, the query operations
never fail: `status()` returns not-running, not-paused, zero results and
`results()` returns the empty list, while `pause`/`resume`/`stop` are
rejected in that state. -/
theorem query_ops_no_session (st : ApiState) (h : st.scraper = none) :
    get_status st = (false, false, 0) ∧ get_results st = [] ∧
    (pause_scraper st).2 = Except.error "No active scraper to pause" ∧
    (resume_scraper st).2 = Except.error "No active scraper to resume" ∧
    (stop_scraper st).2 = Except.error "No active scraper to stop" := by
  unfold get_status get_results pause_scraper resume_scraper stop_scraper
  rw [h]
  exact ⟨rfl, rfl, rfl, rfl, rfl⟩

/-- Witness for C10: the fresh module state answers status and results
queries. -/
theorem query_ops_no_session_witness :
    get_status { scraper := none } = (false, false, 0) ∧
    get_results { scraper := none } = ([] : List Business) :=
  ⟨(query_ops_no_session { scraper := none } rfl).1,
   (query_ops_no_session { scraper := none } rfl).2.1⟩

example : lowerS "LIMA" = "lima" := by decide
example : normKey "  Botica   CENTRAL  " = "botica central" := by decide
example : normalize_text "Minería" = "mineria" := by decide
example : normKey "Café" = "café" := by decide
example : specKeyNorm "Café" = "cafe" := by decide
example : expand_search_term "restaurante" = ["restaurante", "restaurant", "comida"] := by decide
example : expand_search_term "xyz" = ["xyz"] := by decide
example : expand_search_term "Hardware Store" = ["Hardware Store", "herramientas", "tools"] := by decide
example : (build_location_terms "Lima" "Perú").length = 32 := by decide
example : build_location_terms "Cusco" "Perú" = ["Cusco, Perú"] := by decide

end Scraper
